import Mathlib

/-
  Verification of the loomy/core LDAP dict backend
  (src/src/lib-dict/dict-ldap.c) against its natural-language
  specification (spec.md).

  Strings are modelled as `List Char` (`Str`).  Each definition below is a
  shallow embedding of the C function of the same name; the event-driven
  parts (the LDAP client, the ioloop) are modelled by passing the
  environment's behaviour (directory responses, completion batches) as
  explicit arguments.
-/

abbrev Str := List Char

/-- `struct dict_ldap_map` (from dict-ldap-settings.h), restricted to the
fields that dict-ldap.c reads.  In the stored `pattern` every variable is a
bare `'$'` character. -/
structure DictLdapMap where
  pattern : Str
  filter : Str
  ldap_attributes : List Str
  value_attribute : Str
  username_attribute : Str
  base_dn : Str
  scope_val : Nat
deriving Repr, DecidableEq

/-- Result of `dict_ldap_map_match`: the returned boolean, the capture array
`values`, and the two out-parameters `*pat_len_r` / `*path_len_r`. -/
structure MatchRes where
  matched : Bool
  values : List Str
  patLen : Nat
  pathLen : Nat
deriving Repr, DecidableEq

/-- The code after the scanning loop of `dict_ldap_map_match`
(dict-ldap.c lines 116-132).  `pattern` is the full original pattern,
`patC`/`pathC` count the consumed pattern/path characters (so `pat` is
`pattern` minus its first `patC` characters).  `pok` is the C argument
`partial_ok`, `rok` is `recurse`. -/
def dlmm_end (pattern : Str) (pok rok : Bool) (pat path : Str)
    (values : List Str) (patC pathC : Nat) : MatchRes :=
  if pat = [] then
    ⟨decide (path = []), values, patC, pathC⟩
  else if !pok then
    ⟨false, values, patC, pathC⟩
  else if patC ≠ 0 ∧ pattern.get? (patC - 1) ≠ some '/' then
    ⟨false, values, patC, pathC⟩
  else if rok then
    ⟨true, values, patC, pathC⟩
  else
    ⟨decide (pat.head? = some '$' ∧ '/' ∉ pat), values, patC, pathC⟩

/-- The scanning loop of `dict_ldap_map_match` (dict-ldap.c lines 68-114).
One recursive call per loop iteration; the loop runs while both the
remaining pattern `pat` and the remaining path are nonempty.
`strchr(path, '/')` is rendered with `takeWhile`/`dropWhile` at `'/'`. -/
def dlmm_loop (pattern : Str) (pok rok : Bool) :
    Str → Str → List Str → Nat → Nat → MatchRes
  | [], path, values, patC, pathC =>
      dlmm_end pattern pok rok [] path values patC pathC
  | p :: patr, [], values, patC, pathC =>
      dlmm_end pattern pok rok (p :: patr) [] values patC pathC
  | [p], k :: pathr, values, patC, pathC =>
    if p = '$' then
      -- pattern ended with this variable: it matches the rest of the path
      if pok then
        -- iterating: drop a trailing '/', leave pat at the '$', path unmoved
        if (k :: pathr).getLast? = some '/' then
          ⟨true, values ++ [(k :: pathr).dropLast], patC, pathC⟩
        else
          ⟨true, values ++ [k :: pathr], patC, pathC⟩
      else
        ⟨true, values ++ [k :: pathr], patC + 1, pathC + (k :: pathr).length⟩
    else if p = k then
      dlmm_loop pattern pok rok [] pathr values (patC + 1) (pathC + 1)
    else
      ⟨false, values, patC, pathC⟩
  | p :: p2 :: patrr, k :: pathr, values, patC, pathC =>
    if p = '$' then
      if '/' ∈ (k :: pathr) then
        -- variable matches until the next '/' in path
        dlmm_loop pattern pok rok (p2 :: patrr)
          ((k :: pathr).dropWhile (fun c => c ≠ '/'))
          (values ++ [(k :: pathr).takeWhile (fun c => c ≠ '/')])
          (patC + 1)
          (pathC + ((k :: pathr).takeWhile (fun c => c ≠ '/')).length)
      else
        -- no '/' anymore: consume the rest of the path, skip one pattern char
        dlmm_loop pattern pok rok patrr []
          (values ++ [k :: pathr]) (patC + 2) (pathC + (k :: pathr).length)
    else if p = k then
      dlmm_loop pattern pok rok (p2 :: patrr) pathr values (patC + 1) (pathC + 1)
    else
      ⟨false, values, patC, pathC⟩

/-- `dict_ldap_map_match` (dict-ldap.c lines 57-133).  The `values` array is
cleared on entry (`array_clear`), so the loop starts from `[]`. -/
def dict_ldap_map_match (map : DictLdapMap) (path : Str) (pok rok : Bool) :
    MatchRes :=
  dlmm_loop map.pattern pok rok map.pattern path [] 0 0

/-- `ldap_dict_find_map` (dict-ldap.c lines 135-150): scan the configured
maps in order; the first one whose pattern matches (non-partial,
non-recursive) wins, together with its captures. -/
def ldap_dict_find_map (maps : List DictLdapMap) (path : Str) :
    Option (DictLdapMap × List Str) :=
  match maps with
  | [] => none
  | m :: rest =>
    let r := dict_ldap_map_match m path false false
    if r.matched then some (m, r.values) else ldap_dict_find_map rest path

/-- The spec's reference matching algorithm (spec.md §4.1), written from the
spec's words alone: literal characters must match exactly; a `$` greedily
consumes up to the next `/` in the key, or, when it is the final pattern
element, the (possibly empty) remainder of the key; each variable yields one
capture in encounter order; the template matches iff the whole pattern and
the whole key are consumed. -/
def reference_match : Str → Str → Option (List Str)
  | [], key => if key = [] then some [] else none
  | c :: pr, key =>
    if c = '$' then
      match pr with
      | [] => some [key]
      | _ :: _ =>
        (reference_match pr (key.dropWhile (fun ch => ch ≠ '/'))).map
          (fun vs => key.takeWhile (fun ch => ch ≠ '/') :: vs)
    else
      match key with
      | [] => none
      | k :: kr => if c = k then reference_match pr kr else none

/-- What the code actually implements in lookup (non-partial) mode, stated
declaratively.  It deviates from `reference_match` in exactly two corners:
(1) a variable in final position must capture at least one character — an
empty remainder rejects the template; (2) a non-final variable that finds no
`/` in the remaining key consumes the entire remainder and additionally
skips the single pattern character following the variable; the template then
matches iff nothing of the pattern remains after that character. -/
def lookup_match_spec : Str → Str → Option (List Str)
  | [], key => if key = [] then some [] else none
  | c :: pr, key =>
    if c = '$' then
      match pr with
      | [] =>
        match key with
        | [] => none
        | k :: kr => some [k :: kr]
      | _ :: prr =>
        if '/' ∈ key then
          (lookup_match_spec pr (key.dropWhile (fun ch => ch ≠ '/'))).map
            (fun vs => key.takeWhile (fun ch => ch ≠ '/') :: vs)
        else
          match key with
          | [] => none
          | _ :: _ => if prr = [] then some [key] else none
    else
      match key with
      | [] => none
      | k :: kr => if c = k then lookup_match_spec pr kr else none

/-- First-match lookup in a var_expand substitution table
(entries are `(long_key, value)` pairs). -/
def lookupTbl : List (Str × Str) → Str → Option Str
  | [], _ => none
  | (k, v) :: rest, name => if k = name then some v else lookupTbl rest name

mutual

/-- Modelled from the spec: `var_expand` (lib/var-expand.c) is not part of
the sources.  Per spec.md §4.2, expansion replaces every `%\x7bname\x7d`
placeholder in the template with the bound value and lets unknown
placeholders resolve to empty; every other character is copied verbatim. -/
def var_expand_go (tbl : List (Str × Str)) : Str → Str
  | [] => []
  | c :: rest =>
    if c = '%' then var_expand_pct tbl rest
    else c :: var_expand_go tbl rest

/-- Modelled from the spec: the characters after a `'%'`; an opening brace
starts a named placeholder, anything else is copied verbatim. -/
def var_expand_pct (tbl : List (Str × Str)) : Str → Str
  | [] => ['%']
  | d :: rest2 =>
    if d = '{' then var_expand_name tbl [] rest2
    else if d = '%' then '%' :: var_expand_pct tbl rest2
    else '%' :: d :: var_expand_go tbl rest2

/-- Modelled from the spec: scanning the placeholder name up to the closing
brace; `acc` is the name read so far.  An unterminated placeholder expands
to nothing. -/
def var_expand_name (tbl : List (Str × Str)) (acc : Str) : Str → Str
  | [] => []
  | c :: rest =>
    if c = '}' then (lookupTbl tbl acc).getD [] ++ var_expand_go tbl rest
    else var_expand_name tbl (acc ++ [c]) rest

end

/-- Modelled from the spec: the `var_expand` entry point. -/
def var_expand (tbl : List (Str × Str)) (template : Str) : Str :=
  var_expand_go tbl template

/-- The substitution table built by `ldap_dict_build_query`
(dict-ldap.c lines 175-194): first the entry binding `username` to the dict
instance's configured identity, then, positionally, one entry per
attribute/capture pair — the loop bound `i < array_count(values) &&
i < array_count(&map->ldap_attributes)` is exactly `List.zip`. -/
def ldap_dict_exp_table (username : Str) (map : DictLdapMap)
    (values : List Str) : List (Str × Str) :=
  ("username".toList, username) :: map.ldap_attributes.zip values

/-- `ldap_dict_build_query` (dict-ldap.c lines 167-199).  When `priv` is
set the template is `t_strdup_printf("(&(%s=%s)%s)", map->username_attribute,
"%\x7busername\x7d", map->filter)`; otherwise it is `map->filter` verbatim. -/
def ldap_dict_build_query (username : Str) (map : DictLdapMap)
    (values : List Str) (priv : Bool) : Str :=
  let tbl := ldap_dict_exp_table username map values
  let template :=
    if priv then
      "(&(".toList ++ map.username_attribute ++ "=%{username})".toList
        ++ map.filter ++ ")".toList
    else map.filter
  var_expand tbl template

/-- `struct dict_lookup_result` as dict-ldap.c uses it: the `ret` status,
the value and the error string.  A fresh `struct dict_ldap_op` is allocated
with `p_new`, which zeroes it, so the operation's result record starts from
`dict_lookup_result_init`. -/
structure DictLookupResult where
  ret : Int
  value : Option Str
  error : Option Str
deriving Repr, DecidableEq

/-- The zero-initialized result record of a freshly allocated operation. -/
def dict_lookup_result_init : DictLookupResult := ⟨0, none, none⟩

/-- A directory entry: its attribute-name → value-list association. -/
abbrev LdapEntry := List (Str × List Str)

/-- `ldap_entry_get_attribute`: the value list of the named attribute, or
none when the entry lacks it (first matching attribute wins). -/
def ldap_entry_get_attribute (entry : LdapEntry) (name : Str) :
    Option (List Str) :=
  match entry with
  | [] => none
  | (a, vs) :: rest =>
    if a = name then some vs else ldap_entry_get_attribute rest name

/-- What the LDAP client delivers to a completion callback: either a failure
with an error description, or the (possibly empty) sequence of matching
entries that `ldap_search_iterator_next` walks. -/
inductive LdapResult where
  | failed (error : Str)
  | success (entries : List LdapEntry)
deriving Repr, DecidableEq

/-- `ldap_dict_lookup_callback` (dict-ldap.c lines 283-315): decrement the
instance's pending count first, then fill the operation's result record from
the LDAP result; the record is then handed to the caller's callback and the
operation's pool is freed.  Returns the new pending count and the record as
delivered to the caller. -/
def ldap_dict_lookup_callback (map : DictLdapMap) (result : LdapResult)
    (pending : Nat) (res : DictLookupResult) : Nat × DictLookupResult :=
  let pending' := pending - 1
  match result with
  | .failed e => (pending', { res with ret := -1, error := some e })
  | .success entries =>
    match entries.head? with
    | none => (pending', res)
    | some entry =>
      match ldap_entry_get_attribute entry map.value_attribute with
      | some vals => (pending', { res with ret := 1, value := vals.head? })
      | none => (pending', { res with value := none })

/-- `DICT_PATH_PRIVATE`.  Modelled from the spec: dict.h is not part of the
sources; spec.md's examples (`priv/passdb/user1`) and glossary name the
reserved private-namespace prefix, which is the string `"priv/"`. -/
def DICT_PATH_PRIVATE : Str := "priv/".toList

/-- `strncmp(key, DICT_PATH_PRIVATE, strlen(DICT_PATH_PRIVATE)) == 0`
(dict-ldap.c line 413): does `key` start with the private prefix? -/
def key_is_private (key : Str) : Bool :=
  match DICT_PATH_PRIVATE, key with
  | [], _ => true
  | _ :: _, [] => false
  | c :: cs, k :: ks =>
    c = k && key_is_private_go cs ks
where key_is_private_go : Str → Str → Bool
  | [], _ => true
  | _ :: _, [] => false
  | c :: cs, k :: ks => c = k && key_is_private_go cs ks

/-- The mutable per-instance state that the lookup path touches:
the operation counter `last_txid` and the in-flight count `pending`. -/
structure LdapDictState where
  pending : Nat
  last_txid : Nat
deriving Repr, DecidableEq

/-- The `struct ldap_search_input` fields that dict-ldap.c fills in. -/
structure LdapSearchInput where
  base_dn : Str
  scope_val : Nat
  filter : Str
  attributes : List Str
deriving Repr, DecidableEq

/-- What a call to `ldap_dict_lookup_async` did: either it submitted a
search to the LDAP client (carrying the built input, the matched map and the
assigned txid; the caller's callback will run later from
`ldap_dict_lookup_callback`), or it invoked the caller's callback inline
with the given result record and released the operation's pool
(`pool_freed`). -/
inductive AsyncOutcome where
  | search_started (input : LdapSearchInput) (map : DictLdapMap) (txid : Nat)
  | callback_inline (res : DictLookupResult) (pool_freed : Bool)
deriving Repr, DecidableEq

/-- `ldap_dict_lookup_async` (dict-ldap.c lines 384-424).  The txid is a
post-increment of `last_txid`.  When a map matches, `pending` is incremented
and the search is submitted with the built query; when none matches, the
zeroed result record gets `error = "no such key"` and the caller's callback
runs inline before the call returns, after which the pool is freed. -/
def ldap_dict_lookup_async (maps : List DictLdapMap) (username : Str)
    (st : LdapDictState) (key : Str) : LdapDictState × AsyncOutcome :=
  let txid := st.last_txid
  match ldap_dict_find_map maps key with
  | some (map, values) =>
    let input : LdapSearchInput :=
      { base_dn := map.base_dn
        scope_val := map.scope_val
        filter := ldap_dict_build_query username map values (key_is_private key)
        attributes := [map.value_attribute] }
    (⟨st.pending + 1, st.last_txid + 1⟩, .search_started input map txid)
  | none =>
    (⟨st.pending, st.last_txid + 1⟩,
     .callback_inline { dict_lookup_result_init with
                          error := some "no such key".toList } true)

/-- A sequence of async lookups, threading the instance state. -/
def ldap_dict_dispatch_all (maps : List DictLdapMap) (username : Str)
    (st : LdapDictState) : List Str → LdapDictState
  | [] => st
  | key :: keys =>
    ldap_dict_dispatch_all maps username
      (ldap_dict_lookup_async maps username st key).1 keys

/-- A sequence of completion callbacks, threading the pending count; each
element carries the op's map, the delivered LDAP result and the op's result
record so far. -/
def ldap_dict_complete_all (pending : Nat) :
    List (DictLdapMap × LdapResult × DictLookupResult) → Nat
  | [] => pending
  | (map, result, res) :: rest =>
    ldap_dict_complete_all (ldap_dict_lookup_callback map result pending res).1
      rest

/-- The `do { io_loop_run(...); } while (ctx->pending > 0)` loop of
`ldap_dict_wait` (dict-ldap.c lines 263-265).  Each element of `batches` is
the number of completion callbacks the environment delivers during one
`io_loop_run`; the loop exits when, after a run, `pending` is no longer
positive.  Returns the final pending count and the undelivered batches, or
`none` when the delivered events run out with `pending` still positive (the
loop would stay blocked inside `io_loop_run`). -/
def ldap_dict_wait_loop : Nat → List Nat → Option (Nat × List Nat)
  | _, [] => none
  | pending, b :: bs =>
    if pending - b > 0 then ldap_dict_wait_loop (pending - b) bs
    else some (pending - b, bs)

/-- How a call to `ldap_dict_wait` ends. -/
inductive WaitOutcome where
  | assert_failed
  | blocked
  | returned (pending : Nat) (rest : List Nat)
deriving Repr, DecidableEq

/-- `ldap_dict_wait` (dict-ldap.c lines 253-274).  `ioloop_active` models
`ctx->ioloop != NULL`: a wait already in progress on this instance.  The
first statement is `i_assert(ctx->ioloop == NULL)`, an assertion-style
process failure when a wait is already active; otherwise the private ioloop
is created, driven until `pending` reaches zero, and destroyed again (C
returns 0). -/
def ldap_dict_wait (ioloop_active : Bool) (pending : Nat)
    (batches : List Nat) : WaitOutcome :=
  if ioloop_active then .assert_failed
  else
    match ldap_dict_wait_loop pending batches with
    | none => .blocked
    | some (p, rest) => .returned p rest

/-- `ldap_dict_lookup` (dict-ldap.c lines 317-335), the blocking bridge:
submit one async lookup whose callback (`ldap_dict_lookup_done`) copies the
result record into the local slot `res`, wait for completion, then read the
slot.  `env` is the directory's response to the single dispatched search;
`value_r` is the caller's value slot, which the code assigns only in the
`res.ret == 0` branch (otherwise it is left untouched).  Returns
`(ret, *value_r)`. -/
def ldap_dict_lookup (maps : List DictLdapMap) (username : Str)
    (st : LdapDictState) (key : Str) (env : LdapResult)
    (value_r : Option Str) : Int × Option Str :=
  let stOut := ldap_dict_lookup_async maps username st key
  let res : DictLookupResult :=
    match stOut.2 with
    | .callback_inline r _ => r
    | .search_started _ map _ =>
      (ldap_dict_lookup_callback map env stOut.1.pending
        dict_lookup_result_init).2
  if res.ret = 0 then (0, res.value) else (res.ret, value_r)

/-- One registered `struct ldap_dict` instance: its URI and the username
(configuration identity) it was created with. -/
structure LdapDictInstance where
  uri : Str
  username : Str
deriving Repr, DecidableEq

/-- `ldap_dict_create` (dict-ldap.c lines 201-230).  `settings_ok` and
`connect_ok` stand for `dict_ldap_settings_read` and `dict_ldap_connect`
succeeding (their internals are outside the lookup core).  On success the
new instance is prepended to the live list (`DLLIST_PREPEND`) before the
call returns. -/
def ldap_dict_create (list : List LdapDictInstance) (uri username : Str)
    (settings_ok connect_ok : Bool) :
    Option (List LdapDictInstance × LdapDictInstance) :=
  if settings_ok && connect_ok then
    let d : LdapDictInstance := ⟨uri, username⟩
    some (d :: list, d)
  else none

/-- `ldap_dict_init` (dict-ldap.c lines 232-247): reuse a possible existing
entry by exact URI string match, ignoring the new caller's configuration;
otherwise create and register a fresh instance. -/
def ldap_dict_init (list : List LdapDictInstance) (uri username : Str)
    (settings_ok connect_ok : Bool) :
    Option (List LdapDictInstance × LdapDictInstance) :=
  match list.find? (fun d => d.uri = uri) with
  | some d => some (list, d)
  | none => ldap_dict_create list uri username settings_ok connect_ok

/-- Key lemma: in non-partial (lookup) mode the scanning loop agrees with
the declarative `lookup_match_spec`, and on success the capture array is the
accumulator followed by the spec's captures. -/
theorem dlmm_loop_nonpartial (pattern : Str) :
    ∀ (n : Nat) (pat path : Str), pat.length ≤ n →
      ∀ (values : List Str) (patC pathC : Nat),
      ((dlmm_loop pattern false false pat path values patC pathC).matched =
        (lookup_match_spec pat path).isSome)
      ∧ (∀ vs, lookup_match_spec pat path = some vs →
          (dlmm_loop pattern false false pat path values patC pathC).values =
            values ++ vs) := by
  intro n
  induction n with
  | zero =>
    intro pat path hlen values patC pathC
    have hpat : pat = [] := List.length_eq_zero.mp (Nat.le_zero.mp hlen)
    subst hpat
    cases path with
    | nil => simp [dlmm_loop, dlmm_end, lookup_match_spec]
    | cons k kr => simp [dlmm_loop, dlmm_end, lookup_match_spec]
  | succ n ih =>
    intro pat path hlen values patC pathC
    cases pat with
    | nil =>
      cases path with
      | nil => simp [dlmm_loop, dlmm_end, lookup_match_spec]
      | cons k kr => simp [dlmm_loop, dlmm_end, lookup_match_spec]
    | cons p patr =>
      cases path with
      | nil =>
        cases patr with
        | nil =>
          by_cases hp : p = '$' <;>
            simp [dlmm_loop, dlmm_end, lookup_match_spec, hp]
        | cons p2 patrr =>
          by_cases hp : p = '$' <;>
            simp [dlmm_loop, dlmm_end, lookup_match_spec, hp]
      | cons k kr =>
        by_cases hp : p = '$'
        · subst hp
          cases patr with
          | nil =>
            simp [dlmm_loop, lookup_match_spec]
          | cons p2 patrr =>
            by_cases hs : '/' ∈ (k :: kr)
            · have hlen2 : (p2 :: patrr).length ≤ n := by
                simp only [List.length_cons] at hlen ⊢; omega
              have IH := ih (p2 :: patrr)
                ((k :: kr).dropWhile (fun c => c ≠ '/')) hlen2
                (values ++ [(k :: kr).takeWhile (fun c => c ≠ '/')])
                (patC + 1)
                (pathC + ((k :: kr).takeWhile (fun c => c ≠ '/')).length)
              constructor
              · rw [show (dlmm_loop pattern false false ('$' :: p2 :: patrr)
                    (k :: kr) values patC pathC) =
                    (dlmm_loop pattern false false (p2 :: patrr)
                      ((k :: kr).dropWhile (fun c => c ≠ '/'))
                      (values ++ [(k :: kr).takeWhile (fun c => c ≠ '/')])
                      (patC + 1)
                      (pathC + ((k :: kr).takeWhile (fun c => c ≠ '/')).length))
                  from by simp [dlmm_loop, hs]]
                rw [IH.1]
                simp [lookup_match_spec, hs]
              · intro vs hvs
                simp only [lookup_match_spec, if_pos rfl, if_pos hs] at hvs
                rcases Option.map_eq_some'.mp hvs with ⟨vs', hvs', rfl⟩
                rw [show (dlmm_loop pattern false false ('$' :: p2 :: patrr)
                    (k :: kr) values patC pathC) =
                    (dlmm_loop pattern false false (p2 :: patrr)
                      ((k :: kr).dropWhile (fun c => c ≠ '/'))
                      (values ++ [(k :: kr).takeWhile (fun c => c ≠ '/')])
                      (patC + 1)
                      (pathC + ((k :: kr).takeWhile (fun c => c ≠ '/')).length))
                  from by simp [dlmm_loop, hs]]
                rw [IH.2 vs' hvs']
                simp
            · cases patrr with
              | nil =>
                simp [dlmm_loop, dlmm_end, lookup_match_spec, hs]
              | cons x xs =>
                simp [dlmm_loop, dlmm_end, lookup_match_spec, hs]
        · -- literal pattern character
          cases patr with
          | nil =>
            by_cases hk : p = k
            · subst hk
              have IH := ih [] kr (by simp) values (patC + 1) (pathC + 1)
              constructor
              · rw [show (dlmm_loop pattern false false [p] (p :: kr)
                    values patC pathC) =
                    (dlmm_loop pattern false false [] kr values
                      (patC + 1) (pathC + 1))
                  from by simp [dlmm_loop, hp]]
                rw [IH.1]
                simp [lookup_match_spec, hp]
              · intro vs hvs
                simp only [lookup_match_spec, if_neg hp, if_pos rfl] at hvs
                rw [show (dlmm_loop pattern false false [p] (p :: kr)
                    values patC pathC) =
                    (dlmm_loop pattern false false [] kr values
                      (patC + 1) (pathC + 1))
                  from by simp [dlmm_loop, hp]]
                exact IH.2 vs hvs
            · simp [dlmm_loop, lookup_match_spec, hp, hk]
          | cons p2 patrr =>
            by_cases hk : p = k
            · subst hk
              have hlen2 : (p2 :: patrr).length ≤ n := by
                simp only [List.length_cons] at hlen ⊢; omega
              have IH := ih (p2 :: patrr) kr hlen2 values (patC + 1)
                (pathC + 1)
              constructor
              · rw [show (dlmm_loop pattern false false (p :: p2 :: patrr)
                    (p :: kr) values patC pathC) =
                    (dlmm_loop pattern false false (p2 :: patrr) kr values
                      (patC + 1) (pathC + 1))
                  from by simp [dlmm_loop, hp]]
                rw [IH.1]
                simp [lookup_match_spec, hp]
              · intro vs hvs
                simp only [lookup_match_spec, if_neg hp, if_pos rfl] at hvs
                rw [show (dlmm_loop pattern false false (p :: p2 :: patrr)
                    (p :: kr) values patC pathC) =
                    (dlmm_loop pattern false false (p2 :: patrr) kr values
                      (patC + 1) (pathC + 1))
                  from by simp [dlmm_loop, hp]]
                exact IH.2 vs hvs
            · simp [dlmm_loop, lookup_match_spec, hp, hk]

/-- `dict_ldap_map_match` in lookup mode, against the declarative
description: convenience wrapper of `dlmm_loop_nonpartial`. -/
theorem dict_ldap_map_match_lookup (m : DictLdapMap) (path : Str) :
    ((dict_ldap_map_match m path false false).matched =
      (lookup_match_spec m.pattern path).isSome)
    ∧ (∀ vs, lookup_match_spec m.pattern path = some vs →
        (dict_ldap_map_match m path false false).values = vs) := by
  have h := dlmm_loop_nonpartial m.pattern m.pattern.length m.pattern path
    le_rfl [] 0 0
  constructor
  · exact h.1
  · intro vs hvs
    have := h.2 vs hvs
    simpa using this

/-- Helper for C10: a pattern consisting of literal characters followed by a
bare final variable matches exactly the keys that extend the literal prefix
by at least one character. -/
theorem lookup_match_spec_final_var :
    ∀ (lits key : Str), '$' ∉ lits →
      ((lookup_match_spec (lits ++ ['$']) key).isSome = true ↔
        ∃ rest, rest ≠ [] ∧ key = lits ++ rest) := by
  intro lits
  induction lits with
  | nil =>
    intro key _
    cases key with
    | nil => simp [lookup_match_spec]
    | cons k kr =>
      simp only [List.nil_append, lookup_match_spec, if_pos rfl,
        Option.isSome_some]
      constructor
      · intro _
        exact ⟨k :: kr, by simp, rfl⟩
      · intro _
        rfl
  | cons c ls ihls =>
    intro key hnotin
    have hc : c ≠ '$' := fun h => hnotin (by simp [h])
    have hnotin' : '$' ∉ ls := fun h => hnotin (by simp [h])
    cases key with
    | nil =>
      simp [lookup_match_spec, hc]
    | cons k kr =>
      simp only [List.cons_append, lookup_match_spec, if_neg hc]
      by_cases hk : c = k
      · subst hk
        rw [if_pos rfl]
        simp only [List.append_eq]
        rw [ihls kr hnotin']
        constructor
        · rintro ⟨rest, hrest, rfl⟩
          exact ⟨rest, hrest, by simp⟩
        · rintro ⟨rest, hrest, heq⟩
          obtain ⟨-, h2⟩ := List.cons_eq_cons.mp heq
          exact ⟨rest, hrest, h2⟩
      · rw [if_neg hk]
        simp only [Option.isSome_none, Bool.false_eq_true, false_iff]
        rintro ⟨rest, hrest, heq⟩
        obtain ⟨h1, -⟩ := List.cons_eq_cons.mp heq
        exact hk h1.symm

/-- Claim C1 (corrected, counterexample): the claim as stated fails — at
pattern `"a/$"` and key `"a/"` the reference algorithm of the spec matches
(the final variable consumes the empty remainder of the key and pattern and
key are both fully consumed), yet `dict_ldap_map_match` in lookup
(non-partial) mode rejects the template. -/
theorem C1_counterexample :
    reference_match "a/$".toList "a/".toList = some [[]] ∧
    (dict_ldap_map_match ⟨"a/$".toList, [], [], [], [], [], 0⟩
      "a/".toList false false).matched = false := by
  decide

/-- Claim C1 (amended): for every map and key, single-template matching in
lookup (non-partial) mode computes exactly `lookup_match_spec`, the
reference algorithm amended in two corners: a final-position variable must
capture at least one character (an empty remainder rejects), and a
non-final variable that finds no `/` in the remaining key consumes the
whole remainder, skips the single following pattern character, and matches
iff nothing of the pattern remains after it.  Literal characters must match
exactly, a variable otherwise consumes greedily up to the next `/`, and on
success the captures are the spec's captures in encounter order. -/
theorem C1_lookup_match :
    ∀ (m : DictLdapMap) (key : Str),
      ((dict_ldap_map_match m key false false).matched =
        (lookup_match_spec m.pattern key).isSome)
      ∧ (∀ vs, lookup_match_spec m.pattern key = some vs →
          (dict_ldap_map_match m key false false).values = vs) :=
  fun m key => dict_ldap_map_match_lookup m key

/-- Claim C1: witness — the amended claim applied to the spec's end-to-end
scenario 1: pattern `"shared/quota/$"`, key `"shared/quota/alice"`. -/
theorem C1_lookup_match_witness :
    ((dict_ldap_map_match
        ⟨"shared/quota/$".toList, [], [], [], [], [], 0⟩
        "shared/quota/alice".toList false false).matched =
      (lookup_match_spec "shared/quota/$".toList
        "shared/quota/alice".toList).isSome)
    ∧ (dict_ldap_map_match
        ⟨"shared/quota/$".toList, [], [], [], [], [], 0⟩
        "shared/quota/alice".toList false false).values =
          ["alice".toList] :=
  ⟨(C1_lookup_match ⟨"shared/quota/$".toList, [], [], [], [], [], 0⟩
      "shared/quota/alice".toList).1,
   (C1_lookup_match ⟨"shared/quota/$".toList, [], [], [], [], [], 0⟩
      "shared/quota/alice".toList).2 ["alice".toList] (by decide)⟩

/-- Claim C10: for every map whose pattern is a literal prefix followed by a
bare final variable, a key matches in lookup mode iff it extends the
literal prefix by at least one character — so a key that is exactly the
literal prefix (or any prefix of it) does not match: the final variable
must capture at least one character — even though an empty pattern does
match an empty key. -/
theorem C10_final_variable_nonempty :
    (∀ (lits key : Str) (m : DictLdapMap),
        m.pattern = lits ++ ['$'] → '$' ∉ lits →
        ((dict_ldap_map_match m key false false).matched = true ↔
          ∃ rest, rest ≠ [] ∧ key = lits ++ rest))
    ∧ (∀ m : DictLdapMap, m.pattern = [] →
        (dict_ldap_map_match m [] false false).matched = true) := by
  constructor
  · intro lits key m hm hnotin
    have h := (dict_ldap_map_match_lookup m key).1
    rw [h, hm]
    exact lookup_match_spec_final_var lits key hnotin
  · intro m hm
    simp [dict_ldap_map_match, hm, dlmm_loop, dlmm_end]

/-- Claim C10: witness — pattern `"a/$"` (literal prefix `"a/"`), checked at
key `"a/b"`; the hypotheses are discharged at this concrete input.  In
particular keys `"a/"` and `"a"` do not extend the prefix by a nonempty
remainder, hence do not match. -/
theorem C10_final_variable_nonempty_witness :
    ((dict_ldap_map_match ⟨"a/$".toList, [], [], [], [], [], 0⟩
        "a/b".toList false false).matched = true ↔
      ∃ rest, rest ≠ [] ∧ "a/b".toList = "a/".toList ++ rest)
    ∧ (dict_ldap_map_match ⟨[], [], [], [], [], [], 0⟩
        [] false false).matched = true :=
  ⟨C10_final_variable_nonempty.1 "a/".toList "a/b".toList
      ⟨"a/$".toList, [], [], [], [], [], 0⟩ (by decide) (by decide),
   C10_final_variable_nonempty.2 ⟨[], [], [], [], [], [], 0⟩ rfl⟩

/-- Claim C3: map selection scans the configured maps in declaration order
and returns the first map whose template matches the full key, together
with that template's captures; when two or more maps match, the earliest
declared one is chosen regardless of specificity, and when none matches the
result is `none` (NotFound), not an error. -/
theorem C3_first_match_wins :
    (∀ (maps : List DictLdapMap) (path : Str) (i : Nat)
        (hi : i < maps.length),
        (∀ j (hj : j < maps.length), j < i →
          (dict_ldap_map_match (maps.get ⟨j, hj⟩) path false false).matched
            = false) →
        (dict_ldap_map_match (maps.get ⟨i, hi⟩) path false false).matched
          = true →
        ldap_dict_find_map maps path =
          some (maps.get ⟨i, hi⟩,
            (dict_ldap_map_match (maps.get ⟨i, hi⟩) path false false).values))
    ∧ (∀ (maps : List DictLdapMap) (path : Str),
        (∀ m ∈ maps,
          (dict_ldap_map_match m path false false).matched = false) →
        ldap_dict_find_map maps path = none) := by
  constructor
  · intro maps
    induction maps with
    | nil =>
      intro path i hi
      exact absurd hi (by simp)
    | cons m rest ihm =>
      intro path i hi hprev hmatch
      cases i with
      | zero =>
        simp only [List.get] at hmatch ⊢
        simp [ldap_dict_find_map, hmatch]
      | succ i' =>
        have h0 : (dict_ldap_map_match m path false false).matched = false :=
          hprev 0 (by simp) (Nat.succ_pos _)
        have hi' : i' < rest.length := by simpa using hi
        have hrec := ihm path i' hi'
          (fun j hj hji => hprev (j + 1) (by simpa using hj)
            (by omega))
          hmatch
        simp only [ldap_dict_find_map]
        rw [if_neg (by simp [h0])]
        exact hrec
  · intro maps
    induction maps with
    | nil => intro path _; rfl
    | cons m rest ihm =>
      intro path hall
      have h0 : (dict_ldap_map_match m path false false).matched = false :=
        hall m (by simp)
      simp only [ldap_dict_find_map]
      rw [if_neg (by simp [h0])]
      exact ihm path (fun m' hm' => hall m' (by simp [hm']))

/-- Claim C3: witness — two overlapping maps: the first (`"first/$"`) does
not match key `"a/b"`, the second (`"a/$"`) does and is returned with its
capture; and a singleton map list where nothing matches yields `none`. -/
theorem C3_first_match_wins_witness :
    ldap_dict_find_map
      [⟨"first/$".toList, [], [], [], [], [], 0⟩,
       ⟨"a/$".toList, [], [], [], [], [], 0⟩] "a/b".toList =
      some (⟨"a/$".toList, [], [], [], [], [], 0⟩, ["b".toList]) ∧
    ldap_dict_find_map [⟨"first/$".toList, [], [], [], [], [], 0⟩]
      "zzz".toList = none := by
  constructor
  · have h := C3_first_match_wins.1
      [⟨"first/$".toList, [], [], [], [], [], 0⟩,
       ⟨"a/$".toList, [], [], [], [], [], 0⟩] "a/b".toList 1 (by decide)
      (fun j hj hji => by
        have hj0 : j = 0 := by omega
        subst hj0
        show (dict_ldap_map_match ⟨"first/$".toList, [], [], [], [], [], 0⟩
          "a/b".toList false false).matched = false
        decide)
      (by decide)
    simpa using h
  · exact C3_first_match_wins.2 _ _
      (fun m hm => by
        simp only [List.mem_singleton] at hm
        subst hm
        decide)

/-- Zipping stops at the shorter list: entries beyond the first list's
length never appear. -/
theorem zip_take_len {α β : Type} :
    ∀ (as : List α) (bs : List β), as.zip bs = as.zip (bs.take as.length) := by
  intro as
  induction as with
  | nil => intro bs; simp
  | cons a as' ih =>
    intro bs
    cases bs with
    | nil => simp
    | cons b bs' => simp [ih bs']

/-- A template chunk without `'%'` is copied verbatim by expansion. -/
theorem var_expand_go_append (tbl : List (Str × Str)) :
    ∀ (a b : Str), '%' ∉ a →
      var_expand_go tbl (a ++ b) = a ++ var_expand_go tbl b := by
  intro a
  induction a with
  | nil => intro b _; simp
  | cons c a' ih =>
    intro b hmem
    have hc : c ≠ '%' := fun h => hmem (by simp [h])
    have ha' : '%' ∉ a' := fun h => hmem (by simp [h])
    simp [var_expand_go, hc, ih b ha']

/-- Scanning a placeholder name: the name accumulated so far plus the
characters up to the closing brace is looked up in the table. -/
theorem var_expand_name_scan (tbl : List (Str × Str)) :
    ∀ (name acc rest : Str), '}' ∉ name →
      var_expand_name tbl acc (name ++ '}' :: rest) =
        (lookupTbl tbl (acc ++ name)).getD [] ++ var_expand_go tbl rest := by
  intro name
  induction name with
  | nil => intro acc rest _; simp [var_expand_name]
  | cons c name' ih =>
    intro acc rest hmem
    have hc : c ≠ '}' := fun h => hmem (by simp [h])
    have hname' : '}' ∉ name' := fun h => hmem (by simp [h])
    simp only [List.cons_append, var_expand_name, if_neg hc, List.append_eq]
    rw [ih (acc ++ [c]) rest hname']
    simp

/-- Expanding a well-formed placeholder substitutes the table binding. -/
theorem var_expand_go_placeholder (tbl : List (Str × Str))
    (name rest : Str) (h : '}' ∉ name) :
    var_expand_go tbl ('%' :: '{' :: (name ++ '}' :: rest)) =
      (lookupTbl tbl name).getD [] ++ var_expand_go tbl rest := by
  simp only [var_expand_go, var_expand_pct, if_pos rfl]
  rw [var_expand_name_scan tbl name [] rest h]
  simp

/-- Positional lookup in a zipped table with no earlier duplicate key. -/
theorem lookupTbl_zip :
    ∀ (as bs : List Str) (i : Nat) (hi : i < as.length)
      (hb : i < bs.length),
      (∀ j (hj : j < as.length), j < i →
        as.get ⟨j, hj⟩ ≠ as.get ⟨i, hi⟩) →
      lookupTbl (as.zip bs) (as.get ⟨i, hi⟩) = some (bs.get ⟨i, hb⟩) := by
  intro as
  induction as with
  | nil =>
    intro bs i hi
    exact absurd hi (by simp)
  | cons a as' ih =>
    intro bs i hi hb hnodup
    cases bs with
    | nil => exact absurd hb (by simp)
    | cons b bs' =>
      cases i with
      | zero => simp [lookupTbl]
      | succ i' =>
        have hi' : i' < as'.length := by simpa using hi
        have hb' : i' < bs'.length := by simpa using hb
        have hne : a ≠ as'.get ⟨i', hi'⟩ :=
          hnodup 0 (by simp) (Nat.succ_pos _)
        have hredA : (a :: as').get ⟨i' + 1, hi⟩ = as'.get ⟨i', hi'⟩ := rfl
        have hredB : (b :: bs').get ⟨i' + 1, hb⟩ = bs'.get ⟨i', hb'⟩ := rfl
        simp only [List.zip_cons_cons, lookupTbl, hredA, hredB]
        rw [if_neg hne]
        exact ih bs' i' hi' hb'
          (fun j hj hji => hnodup (j + 1) (by simpa using hj) (by omega))

/-- Claim C4: the query builder expands a substitution table that always
binds `username` to the instance's configured identity and then binds each
map attribute name positionally to the corresponding capture, stopping at
the shorter of the two lists (extra captures are ignored, not an error);
under the private namespace prefix the expanded template is the conjunction
`(&(<username attribute>=<username>)<map filter>)`, otherwise the map's
filter verbatim. -/
theorem C4_build_query :
    ∀ (u : Str) (m : DictLdapMap) (vs : List Str),
      (∀ priv, ldap_dict_build_query u m vs priv =
        ldap_dict_build_query u m (vs.take m.ldap_attributes.length) priv)
      ∧ (ldap_dict_build_query u m vs false =
          var_expand (ldap_dict_exp_table u m vs) m.filter)
      ∧ (lookupTbl (ldap_dict_exp_table u m vs) "username".toList = some u)
      ∧ ('%' ∉ m.username_attribute →
          ldap_dict_build_query u m vs true =
            "(&(".toList ++ m.username_attribute ++ "=".toList ++ u
              ++ ")".toList
              ++ var_expand (ldap_dict_exp_table u m vs)
                  (m.filter ++ ")".toList))
      ∧ (∀ i (hi : i < m.ldap_attributes.length) (hv : i < vs.length),
          m.ldap_attributes.get ⟨i, hi⟩ ≠ "username".toList →
          (∀ j (hj : j < m.ldap_attributes.length), j < i →
            m.ldap_attributes.get ⟨j, hj⟩ ≠ m.ldap_attributes.get ⟨i, hi⟩) →
          lookupTbl (ldap_dict_exp_table u m vs)
            (m.ldap_attributes.get ⟨i, hi⟩) = some (vs.get ⟨i, hv⟩)) := by
  intro u m vs
  refine ⟨?_, rfl, ?_, ?_, ?_⟩
  · intro priv
    simp only [ldap_dict_build_query, ldap_dict_exp_table]
    rw [← zip_take_len]
  · simp [lookupTbl, ldap_dict_exp_table]
  · intro hpct
    have hnm : '%' ∉ ("(&(".toList ++ m.username_attribute ++ ['=']) := by
      intro hmem
      rcases List.mem_append.mp hmem with h | h
      · rcases List.mem_append.mp h with h2 | h2
        · simp at h2
        · exact hpct h2
      · simp at h
    have htempl :
        "(&(".toList ++ m.username_attribute ++ "=%{username})".toList
            ++ m.filter ++ ")".toList =
          ("(&(".toList ++ m.username_attribute ++ ['='])
            ++ ('%' :: '{' ::
                ("username".toList ++ '}' :: (')' ::
                  (m.filter ++ ")".toList)))) := by
      simp
    have h0 : ldap_dict_build_query u m vs true =
        var_expand_go (ldap_dict_exp_table u m vs)
          ("(&(".toList ++ m.username_attribute ++ "=%{username})".toList
            ++ m.filter ++ ")".toList) := rfl
    rw [h0, htempl, var_expand_go_append _ _ _ hnm,
      var_expand_go_placeholder _ _ _ (by decide)]
    have hu : lookupTbl (ldap_dict_exp_table u m vs) "username".toList
        = some u := by simp [lookupTbl, ldap_dict_exp_table]
    rw [hu]
    have hparen : var_expand_go (ldap_dict_exp_table u m vs)
        (')' :: (m.filter ++ ")".toList)) =
        ')' :: var_expand_go (ldap_dict_exp_table u m vs)
          (m.filter ++ ")".toList) := by
      simp [var_expand_go]
    rw [hparen]
    simp [var_expand]
  · intro i hi hv hne hnodup
    simp only [ldap_dict_exp_table, lookupTbl]
    rw [if_neg (fun h => hne h.symm)]
    exact lookupTbl_zip m.ldap_attributes vs i hi hv hnodup

/-- Claim C4: witness — the spec's end-to-end scenario 2 shape: identity
`"svc"`, username attribute `"uid"`, filter `"(class=user)"`, attribute
list `["la"]`, captures `["bob", "extra"]` (the extra capture is ignored);
the private filter is the conjunction and `"la"` is bound to `"bob"`. -/
theorem C4_build_query_witness :
    (ldap_dict_build_query "svc".toList
        ⟨"priv/passdb/$".toList, "(class=user)".toList, ["la".toList],
          "pass".toList, "uid".toList, [], 0⟩
        ["bob".toList, "extra".toList] true =
      "(&(".toList ++ "uid".toList ++ "=".toList ++ "svc".toList
        ++ ")".toList
        ++ var_expand
            (ldap_dict_exp_table "svc".toList
              ⟨"priv/passdb/$".toList, "(class=user)".toList, ["la".toList],
                "pass".toList, "uid".toList, [], 0⟩
              ["bob".toList, "extra".toList])
            ("(class=user)".toList ++ ")".toList))
    ∧ lookupTbl
        (ldap_dict_exp_table "svc".toList
          ⟨"priv/passdb/$".toList, "(class=user)".toList, ["la".toList],
            "pass".toList, "uid".toList, [], 0⟩
          ["bob".toList, "extra".toList]) "la".toList =
        some "bob".toList :=
  ⟨(C4_build_query "svc".toList
      ⟨"priv/passdb/$".toList, "(class=user)".toList, ["la".toList],
        "pass".toList, "uid".toList, [], 0⟩
      ["bob".toList, "extra".toList]).2.2.2.1 (by decide),
   (C4_build_query "svc".toList
      ⟨"priv/passdb/$".toList, "(class=user)".toList, ["la".toList],
        "pass".toList, "uid".toList, [], 0⟩
      ["bob".toList, "extra".toList]).2.2.2.2 0 (by decide) (by decide)
      (by decide) (fun j hj hji => absurd hji (by omega))⟩

/-- Claim C2 (code bug, evaluated at the failing input): one map with
pattern `"$"` and value attribute `"v"`; key `"k"`; the directory responds
with an entry carrying `v = "val"`.  The completion callback records
`ret = 1` and `value = "val"` into the local slot, and the blocking lookup
does return the recorded status `1` — but it leaves the caller's value slot
untouched (here `none`) instead of copying the recorded `"val"`: line 329
of dict-ldap.c assigns `*value_r` only in the `res.ret == 0` branch. -/
theorem C2_blocking_value_dropped :
    (ldap_dict_lookup_callback
        ⟨"$".toList, "(c=u)".toList, [], "v".toList, "u".toList,
          "b".toList, 0⟩
        (.success [[("v".toList, ["val".toList])]]) 1
        dict_lookup_result_init).2 =
      ⟨1, some "val".toList, none⟩
    ∧ ldap_dict_lookup
        [⟨"$".toList, "(c=u)".toList, [], "v".toList, "u".toList,
           "b".toList, 0⟩]
        "svc".toList ⟨0, 0⟩ "k".toList
        (.success [[("v".toList, ["val".toList])]]) none = (1, none) := by
  decide

/-- The completion callback always decrements the pending count by one
(dict-ldap.c line 290), whatever the delivered result holds. -/
theorem callback_pending (map : DictLdapMap) (result : LdapResult)
    (p : Nat) (res : DictLookupResult) :
    (ldap_dict_lookup_callback map result p res).1 = p - 1 := by
  cases result with
  | failed e => rfl
  | success entries =>
    cases hE : entries.head? with
    | none => simp [ldap_dict_lookup_callback, hE]
    | some entry =>
      cases hA : ldap_entry_get_attribute entry map.value_attribute with
      | none => simp [ldap_dict_lookup_callback, hE, hA]
      | some vals => simp [ldap_dict_lookup_callback, hE, hA]

/-- A dispatched async lookup whose key matches a map increments the
pending count by exactly one. -/
theorem async_pending_incr (maps : List DictLdapMap) (u : Str)
    (st : LdapDictState) (key : Str)
    (h : (ldap_dict_find_map maps key).isSome = true) :
    (ldap_dict_lookup_async maps u st key).1.pending = st.pending + 1 := by
  obtain ⟨x, hx⟩ := Option.isSome_iff_exists.mp h
  obtain ⟨mp, vals⟩ := x
  simp [ldap_dict_lookup_async, hx]

/-- Completing operations one after another leaves `pending` decreased by
their number. -/
theorem complete_all_sub :
    ∀ (cs : List (DictLdapMap × LdapResult × DictLookupResult)) (p : Nat),
      ldap_dict_complete_all p cs = p - cs.length := by
  intro cs
  induction cs with
  | nil => intro p; rfl
  | cons c rest ih =>
    intro p
    obtain ⟨map, result, res⟩ := c
    simp only [ldap_dict_complete_all]
    rw [callback_pending, ih (p - 1)]
    simp only [List.length_cons]
    omega

/-- Claim C5: the pending-count invariant.  (1) an async lookup whose key
matches a map increments `pending` by exactly one when it submits the
search; (2) each completion callback decrements `pending` by exactly one
before the caller's callback runs; (3) after N dispatched lookups (all
matching) with no completions observed, `pending` has grown by N; (4) after
all N complete, `pending` is back to zero; (5) whenever the wait loop
returns it returns with `pending = 0`, exactly at the first
`io_loop_run` boundary where `pending` reached zero — at every earlier
boundary `pending` was still positive — leaving later events undelivered;
(6) and the loop does return once the delivered completions cover
`pending`. -/
theorem C5_pending_invariant :
    (∀ (maps : List DictLdapMap) (u : Str) (st : LdapDictState) (key : Str),
        (ldap_dict_find_map maps key).isSome = true →
        (ldap_dict_lookup_async maps u st key).1.pending = st.pending + 1)
    ∧ (∀ (map : DictLdapMap) (result : LdapResult) (p : Nat)
        (res : DictLookupResult), 0 < p →
        (ldap_dict_lookup_callback map result p res).1 + 1 = p)
    ∧ (∀ (maps : List DictLdapMap) (u : Str) (st : LdapDictState)
        (keys : List Str),
        (∀ k ∈ keys, (ldap_dict_find_map maps k).isSome = true) →
        (ldap_dict_dispatch_all maps u st keys).pending =
          st.pending + keys.length)
    ∧ (∀ (p : Nat)
        (cs : List (DictLdapMap × LdapResult × DictLookupResult)),
        cs.length = p → ldap_dict_complete_all p cs = 0)
    ∧ (∀ (batches : List Nat) (p p' : Nat) (rest : List Nat),
        ldap_dict_wait_loop p batches = some (p', rest) →
        p' = 0 ∧ ∃ pre, pre ≠ [] ∧ batches = pre ++ rest ∧
          p - pre.sum = 0 ∧
          ∀ (q r : List Nat), pre = q ++ r → q ≠ [] → r ≠ [] →
            p - q.sum > 0)
    ∧ (∀ (batches : List Nat) (p : Nat), batches ≠ [] → p ≤ batches.sum →
        (ldap_dict_wait_loop p batches).isSome = true) := by
  refine ⟨async_pending_incr, ?_, ?_, ?_, ?_, ?_⟩
  · intro map result p res hp
    rw [callback_pending]
    omega
  · intro maps u st keys
    induction keys generalizing st with
    | nil => intro _; simp [ldap_dict_dispatch_all]
    | cons k ks ih =>
      intro hall
      have hk : (ldap_dict_find_map maps k).isSome = true :=
        hall k (by simp)
      simp only [ldap_dict_dispatch_all]
      rw [ih _ (fun k' hk' => hall k' (by simp [hk'])),
        async_pending_incr maps u st k hk]
      simp only [List.length_cons]
      omega
  · intro p cs hlen
    rw [complete_all_sub, hlen]
    omega
  · intro batches
    induction batches with
    | nil =>
      intro p p' rest h
      exact absurd h (by simp [ldap_dict_wait_loop])
    | cons b bs ih =>
      intro p p' rest h
      simp only [ldap_dict_wait_loop] at h
      by_cases hgt : p - b > 0
      · rw [if_pos hgt] at h
        obtain ⟨hz, pre', hpre', hbs, hsum, hearly⟩ := ih (p - b) p' rest h
        refine ⟨hz, b :: pre', by simp, by simp [hbs], ?_, ?_⟩
        · have h5 : p - b - pre'.sum = 0 := hsum
          simp only [List.sum_cons]
          omega
        · intro q r hqr hq hr
          cases q with
          | nil => exact absurd rfl hq
          | cons q0 q' =>
            obtain ⟨hq0, hq'⟩ := List.cons_eq_cons.mp hqr
            subst hq0
            cases q' with
            | nil =>
              simp only [List.sum_cons, List.sum_nil]
              omega
            | cons x xs =>
              have h6 := hearly (x :: xs) r hq' (by simp) hr
              simp only [List.sum_cons] at h6 ⊢
              omega
      · rw [if_neg hgt] at h
        obtain ⟨h1, h2⟩ := Prod.mk.injEq .. ▸ Option.some.injEq .. ▸ h
        refine ⟨by omega, [b], by simp, by simp [h2.symm], by simp; omega, ?_⟩
        intro q r hqr hq hr
        cases q with
        | nil => exact absurd rfl hq
        | cons q0 q' =>
          obtain ⟨-, hq'⟩ := List.cons_eq_cons.mp hqr
          cases q' with
          | nil =>
            exact absurd hq'.symm hr
          | cons x xs =>
            exact absurd (congrArg List.length hq')
              (by simp)
  · intro batches
    induction batches with
    | nil => intro p h; exact absurd rfl h
    | cons b bs ih =>
      intro p _ hsum
      simp only [ldap_dict_wait_loop]
      by_cases hgt : p - b > 0
      · rw [if_pos hgt]
        have hbs : bs ≠ [] := by
          intro hnil
          subst hnil
          simp at hsum
          omega
        have hle : p - b ≤ bs.sum := by
          simp only [List.sum_cons] at hsum
          omega
        exact ih (p - b) hbs hle
      · rw [if_neg hgt]
        rfl

/-- Claim C5: witness — the invariant instantiated concretely: one
dispatched lookup on map `"$"` raises `pending` from 0 to 1; a completion
at `pending = 1` brings it back; two dispatched lookups give `pending = 2`
and completing both gives 0; the wait loop on `pending = 1` consuming one
single-completion batch returns at exactly that point; and with two batches
covering `pending = 2` the loop does return. -/
theorem C5_pending_invariant_witness :
    (ldap_dict_lookup_async
        [⟨"$".toList, [], [], "v".toList, "u".toList, [], 0⟩]
        "svc".toList ⟨0, 0⟩ "k".toList).1.pending = 0 + 1
    ∧ (ldap_dict_lookup_callback
        ⟨"$".toList, [], [], "v".toList, "u".toList, [], 0⟩
        (.failed "e".toList) 1 dict_lookup_result_init).1 + 1 = 1
    ∧ (ldap_dict_dispatch_all
        [⟨"$".toList, [], [], "v".toList, "u".toList, [], 0⟩]
        "svc".toList ⟨0, 0⟩ ["a".toList, "b".toList]).pending = 0 + 2
    ∧ ldap_dict_complete_all 2
        [(⟨"$".toList, [], [], "v".toList, "u".toList, [], 0⟩,
          .failed "e".toList, dict_lookup_result_init),
         (⟨"$".toList, [], [], "v".toList, "u".toList, [], 0⟩,
          .failed "e".toList, dict_lookup_result_init)] = 0
    ∧ (0 = 0 ∧ ∃ pre, pre ≠ [] ∧ [1] = pre ++ ([] : List Nat) ∧
        1 - pre.sum = 0 ∧
        ∀ (q r : List Nat), pre = q ++ r → q ≠ [] → r ≠ [] →
          1 - q.sum > 0)
    ∧ (ldap_dict_wait_loop 2 [1, 1]).isSome = true :=
  ⟨C5_pending_invariant.1
      [⟨"$".toList, [], [], "v".toList, "u".toList, [], 0⟩]
      "svc".toList ⟨0, 0⟩ "k".toList (by decide),
   C5_pending_invariant.2.1
      ⟨"$".toList, [], [], "v".toList, "u".toList, [], 0⟩
      (.failed "e".toList) 1 dict_lookup_result_init (by decide),
   C5_pending_invariant.2.2.1
      [⟨"$".toList, [], [], "v".toList, "u".toList, [], 0⟩]
      "svc".toList ⟨0, 0⟩ ["a".toList, "b".toList] (by decide),
   C5_pending_invariant.2.2.2.1 2
      [(⟨"$".toList, [], [], "v".toList, "u".toList, [], 0⟩,
        .failed "e".toList, dict_lookup_result_init),
       (⟨"$".toList, [], [], "v".toList, "u".toList, [], 0⟩,
        .failed "e".toList, dict_lookup_result_init)] (by decide),
   C5_pending_invariant.2.2.2.2.1 [1] 1 0 [] (by decide),
   C5_pending_invariant.2.2.2.2.2 [1, 1] 2 (by decide) (by decide)⟩

/-- Claim C6: for a key matching no configured map, `ldap_dict_lookup_async`
invokes the caller's callback synchronously, inline, before the call
returns, with a result record whose error is `"no such key"` (and whose
status is the zeroed default 0); no search is submitted to the LDAP client
(the outcome is `callback_inline`, not `search_started`), the pending count
is unchanged, and the operation's pool is unreferenced immediately after
the callback returns (`pool_freed = true`). -/
theorem C6_no_map_inline_error :
    ∀ (maps : List DictLdapMap) (u : Str) (st : LdapDictState) (key : Str),
      ldap_dict_find_map maps key = none →
      ldap_dict_lookup_async maps u st key =
        (⟨st.pending, st.last_txid + 1⟩,
         .callback_inline ⟨0, none, some "no such key".toList⟩ true) := by
  intro maps u st key h
  simp [ldap_dict_lookup_async, h, dict_lookup_result_init]

/-- Claim C6: witness — no map is configured, so key `"x"` matches nothing:
the callback runs inline with the `"no such key"` error and `pending` stays
at 5. -/
theorem C6_no_map_inline_error_witness :
    ldap_dict_lookup_async [] "svc".toList ⟨5, 7⟩ "x".toList =
      (⟨5, 8⟩,
       .callback_inline ⟨0, none, some "no such key".toList⟩ true) :=
  C6_no_map_inline_error [] "svc".toList ⟨5, 7⟩ "x".toList rfl

/-- Claim C7: when a dispatched search completes successfully with zero
matching entries, or with a first entry lacking the requested value
attribute, the completion path leaves the operation's result record at its
zero-initialized default (`ret = 0`, no value, no error — no explicit
success or failure marker), and that ambiguous record is still what is
handed to the caller's callback (the second component of the model's
return value is exactly what `op->callback` receives). -/
theorem C7_ambiguous_empty_result :
    (∀ (map : DictLdapMap) (p : Nat),
        ldap_dict_lookup_callback map (.success []) p
          dict_lookup_result_init = (p - 1, dict_lookup_result_init))
    ∧ (∀ (map : DictLdapMap) (p : Nat) (entry : LdapEntry)
        (rest : List LdapEntry),
        ldap_entry_get_attribute entry map.value_attribute = none →
        ldap_dict_lookup_callback map (.success (entry :: rest)) p
          dict_lookup_result_init = (p - 1, dict_lookup_result_init)) := by
  constructor
  · intro map p
    rfl
  · intro map p entry rest h
    simp [ldap_dict_lookup_callback, h, dict_lookup_result_init]

/-- Claim C7: witness — a successful search with no entries, and one whose
only entry (no attributes at all) lacks the value attribute `"v"`: both
deliver the untouched zero record. -/
theorem C7_ambiguous_empty_result_witness :
    ldap_dict_lookup_callback
      ⟨"$".toList, [], [], "v".toList, "u".toList, [], 0⟩ (.success []) 1
      dict_lookup_result_init = (1 - 1, dict_lookup_result_init)
    ∧ ldap_dict_lookup_callback
        ⟨"$".toList, [], [], "v".toList, "u".toList, [], 0⟩
        (.success [[]]) 1 dict_lookup_result_init =
        (1 - 1, dict_lookup_result_init) :=
  ⟨C7_ambiguous_empty_result.1
      ⟨"$".toList, [], [], "v".toList, "u".toList, [], 0⟩ 1,
   C7_ambiguous_empty_result.2
      ⟨"$".toList, [], [], "v".toList, "u".toList, [], 0⟩ 1 [] [] rfl⟩

/-- Whatever `ldap_dict_init` returns came with the requested URI and is
registered in the returned live list. -/
theorem ldap_dict_init_uri_mem :
    ∀ (list : List LdapDictInstance) (uri u : Str) (s c : Bool)
      (l' : List LdapDictInstance) (d : LdapDictInstance),
      ldap_dict_init list uri u s c = some (l', d) →
      d.uri = uri ∧ d ∈ l' := by
  intro list uri u s c l' d h
  simp only [ldap_dict_init] at h
  cases hf : list.find? (fun e => e.uri = uri) with
  | some d0 =>
    rw [hf] at h
    obtain ⟨h1, h2⟩ := Prod.mk.injEq .. ▸ Option.some.injEq .. ▸ h
    subst h1
    subst h2
    refine ⟨?_, List.mem_of_find?_eq_some hf⟩
    have := List.find?_some hf
    simpa using this
  | none =>
    rw [hf] at h
    simp only [ldap_dict_create] at h
    cases hsc : (s && c) with
    | false => rw [hsc] at h; simp at h
    | true =>
      rw [hsc] at h
      simp only [if_pos rfl] at h
      obtain ⟨h1, h2⟩ := Prod.mk.injEq .. ▸ Option.some.injEq .. ▸ h
      subst h1
      subst h2
      exact ⟨rfl, by simp⟩

/-- Claim C8: instance reuse.  (1) after an open of some URI, a second open
with the same URI returns exactly the same instance and the unchanged live
list, whatever configuration (and settings/connect outcome) the second
caller brings — the first opener's configuration wins; (2) opens with
distinct URIs return distinct instances; (3) any instance returned by open
carries the requested URI and is registered in the returned live list
before open returns; (4) on a URI not yet in the list, a successful open
creates the instance from the caller's configuration and prepends it. -/
theorem C8_instance_reuse :
    (∀ (list l₁ : List LdapDictInstance) (d₁ : LdapDictInstance)
        (uri uA uB : Str) (s c s' c' : Bool),
        ldap_dict_init list uri uA s c = some (l₁, d₁) →
        ldap_dict_init l₁ uri uB s' c' = some (l₁, d₁))
    ∧ (∀ (list lA lB : List LdapDictInstance)
        (dA dB : LdapDictInstance) (uriA uriB uA uB : Str)
        (s c s' c' : Bool),
        uriA ≠ uriB →
        ldap_dict_init list uriA uA s c = some (lA, dA) →
        ldap_dict_init lA uriB uB s' c' = some (lB, dB) →
        dA ≠ dB)
    ∧ (∀ (list : List LdapDictInstance) (uri u : Str) (s c : Bool)
        (l' : List LdapDictInstance) (d : LdapDictInstance),
        ldap_dict_init list uri u s c = some (l', d) →
        d.uri = uri ∧ d ∈ l')
    ∧ (∀ (list : List LdapDictInstance) (uri u : Str),
        (∀ d ∈ list, d.uri ≠ uri) →
        ldap_dict_init list uri u true true =
          some (⟨uri, u⟩ :: list, ⟨uri, u⟩)) := by
  refine ⟨?_, ?_, ldap_dict_init_uri_mem, ?_⟩
  · intro list l₁ d₁ uri uA uB s c s' c' h
    simp only [ldap_dict_init] at h ⊢
    cases hf : list.find? (fun e => e.uri = uri) with
    | some d0 =>
      rw [hf] at h
      obtain ⟨h1, h2⟩ := Prod.mk.injEq .. ▸ Option.some.injEq .. ▸ h
      subst h1
      subst h2
      rw [hf]
    | none =>
      rw [hf] at h
      simp only [ldap_dict_create] at h
      cases hsc : (s && c) with
      | false => rw [hsc] at h; simp at h
      | true =>
        rw [hsc] at h
        simp only [if_pos rfl] at h
        obtain ⟨h1, h2⟩ := Prod.mk.injEq .. ▸ Option.some.injEq .. ▸ h
        subst h1
        subst h2
        rw [List.find?_cons_of_pos _ (by simp)]
  · intro list lA lB dA dB uriA uriB uA uB s c s' c' hne hA hB heq
    have h1 := (ldap_dict_init_uri_mem list uriA uA s c lA dA hA).1
    have h2 := (ldap_dict_init_uri_mem lA uriB uB s' c' lB dB hB).1
    rw [heq, h2] at h1
    exact hne h1.symm
  · intro list uri u hfresh
    have hf : list.find? (fun e => e.uri = uri) = none :=
      List.find?_eq_none.mpr (fun d hd => by simpa using hfresh d hd)
    simp only [ldap_dict_init]
    rw [hf]
    simp [ldap_dict_create]

/-- Claim C8: witness — URI `"u1"` opened with identity `"a"`; a second
open of `"u1"` with identity `"b"` (and even with failing settings/connect
oracles, which are never consulted on the reuse path) returns the original
instance and the unchanged list; the instance opened for `"u2"` is a
distinct instance; a fresh create registers the instance before
returning. -/
theorem C8_instance_reuse_witness :
    ldap_dict_init [⟨"u1".toList, "a".toList⟩] "u1".toList "b".toList
      false false =
      some ([⟨"u1".toList, "a".toList⟩], ⟨"u1".toList, "a".toList⟩)
    ∧ (⟨"u1".toList, "a".toList⟩ : LdapDictInstance) ≠
        ⟨"u2".toList, "x".toList⟩
    ∧ ldap_dict_init [] "u1".toList "a".toList true true =
        some ([⟨"u1".toList, "a".toList⟩], ⟨"u1".toList, "a".toList⟩) :=
  ⟨C8_instance_reuse.1 [] [⟨"u1".toList, "a".toList⟩]
      ⟨"u1".toList, "a".toList⟩ "u1".toList "a".toList "b".toList
      true true false false (by decide),
   C8_instance_reuse.2.1 [] [⟨"u1".toList, "a".toList⟩]
      (⟨"u2".toList, "x".toList⟩ :: [⟨"u1".toList, "a".toList⟩])
      ⟨"u1".toList, "a".toList⟩ ⟨"u2".toList, "x".toList⟩
      "u1".toList "u2".toList "a".toList "x".toList
      true true true true (by decide) (by decide) (by decide),
   C8_instance_reuse.2.2.2 [] "u1".toList "a".toList
      (fun d hd => absurd hd (by simp))⟩

/-- Claim C9: `ldap_dict_wait` begins with `i_assert(ctx->ioloop == NULL)`:
called while this instance's private event loop is already active (a wait
already in progress), it fails loudly with an assertion-style process
failure — it neither blocks nor proceeds; and whenever no wait is active
the assertion never fires, whatever `pending` and the delivered events
are. -/
theorem C9_wait_reentrancy :
    (∀ (p : Nat) (batches : List Nat),
        ldap_dict_wait true p batches = .assert_failed)
    ∧ (∀ (p : Nat) (batches : List Nat),
        ldap_dict_wait false p batches ≠ .assert_failed) := by
  constructor
  · intro p batches
    rfl
  · intro p batches
    have hdef : ldap_dict_wait false p batches =
        match ldap_dict_wait_loop p batches with
        | none => WaitOutcome.blocked
        | some (q, rest) => WaitOutcome.returned q rest := rfl
    rw [hdef]
    cases ldap_dict_wait_loop p batches with
    | none => simp
    | some pr =>
      obtain ⟨a, b⟩ := pr
      simp

/-- Claim C9: witness — the two directions at `pending = 1` with one
single-completion batch. -/
theorem C9_wait_reentrancy_witness :
    ldap_dict_wait true 1 [1] = .assert_failed
    ∧ ldap_dict_wait false 1 [1] ≠ .assert_failed :=
  ⟨C9_wait_reentrancy.1 1 [1], C9_wait_reentrancy.2 1 [1]⟩
